import Mathlib

/-!
Shallow embedding of the greenlight-api middleware pipeline core:
per-client token-bucket rate limiting with idle eviction, the ordered
middleware chain (panic recovery, rate limit, authenticate, per-route
authorization), metrics status capture, and token validation.

Sources: `cmd/api/middleware.go`, `cmd/api/routes.go` (the revision that
wires the full chain), `internal/data/tokens.go`,
`internal/data/permissions.go`, `internal/validator/validator.go`,
`cmd/api/context.go`, `cmd/api/main.go`.

Modelling conventions: wall-clock time is rational-valued seconds and token
counts are rationals (the Go code uses `float64` seconds and token counts;
no property below depends on floating-point rounding). Go strings that are
parsed character by character (the Authorization header and tokens) are
modelled as `List Char`; the repository's tokens are ASCII base32, so Go's
byte length coincides with character count. Go's `map` is modelled as an
association list whose operations keep at most one binding per key.
-/

namespace Greenlight

/-- Modelled from the spec: the per-client token bucket realised in the Go
code by `golang.org/x/time/rate.Limiter` (an external dependency whose
source is not part of this repository). Spec §3: attributes `capacity`,
`refillRate`, `tokens`, `lastRefill`. -/
structure TokenBucket where
  capacity : ℚ
  refillRate : ℚ
  tokens : ℚ
  lastRefill : ℚ
  deriving Repr, DecidableEq

namespace TokenBucket

/-- Modelled from the spec (§4.1 `TryAcquire`, the behaviour of
`rate.Limiter.Allow` invoked at `cmd/api/middleware.go:161`): compute
elapsed time since `lastRefill`; add `elapsed * refillRate` tokens, capped
at `capacity`; set `lastRefill = now`; if the refilled count is at least 1,
subtract 1 and return true; else return false, leaving the refilled token
count undebited. -/
def tryAcquire (b : TokenBucket) (now : ℚ) : Bool × TokenBucket :=
  let refilled := min (b.tokens + (now - b.lastRefill) * b.refillRate) b.capacity
  if 1 ≤ refilled then
    (true, { b with tokens := refilled - 1, lastRefill := now })
  else
    (false, { b with tokens := refilled, lastRefill := now })

/-- Modelled from the spec (§4.2, §5): a freshly created limiter
(`rate.NewLimiter(rps, burst)`, `cmd/api/middleware.go:155`) starts with a
full burst allowance — "tokens reset to implicit full capacity via the
absent → create path". -/
def fresh (rps : ℚ) (burst : ℕ) (now : ℚ) : TokenBucket :=
  { capacity := (burst : ℚ), refillRate := rps, tokens := (burst : ℚ),
    lastRefill := now }

/-- `n` consecutive acquire attempts at a single instant, counting how many
are granted. -/
def acquireRun (b : TokenBucket) (now : ℚ) : ℕ → ℕ × TokenBucket
  | 0 => (0, b)
  | n + 1 =>
    let (ok, b') := b.tryAcquire now
    let (k, b'') := acquireRun b' now n
    ((if ok then 1 else 0) + k, b'')

/-- Spec §3 invariant for a bucket: `0 ≤ tokens ≤ capacity`. -/
def Inv (b : TokenBucket) : Prop := 0 ≤ b.tokens ∧ b.tokens ≤ b.capacity

instance (b : TokenBucket) : Decidable b.Inv :=
  inferInstanceAs (Decidable (0 ≤ b.tokens ∧ b.tokens ≤ b.capacity))

/-- Run a sequence of acquire attempts at the given times, keeping the
final bucket state. -/
def applyAll (b : TokenBucket) : List ℚ → TokenBucket
  | [] => b
  | t :: ts => applyAll (b.tryAcquire t).2 ts

/-- `timeOk prev ts` holds when the attempt times `ts` are monotone and do
not precede `prev` (wall-clock time never runs backwards). -/
def timeOk : ℚ → List ℚ → Bool
  | _, [] => true
  | prev, t :: ts => prev ≤ t && timeOk t ts

end TokenBucket

/-- The limiter section of the process configuration
(`cmd/api/main.go`, `config.limiter`): requests per second, burst size and
the enabled flag. -/
structure LimiterConfig where
  rps : ℚ
  burst : ℕ
  enabled : Bool
  deriving Repr, DecidableEq

/-- One entry of the per-client registry (`cmd/api/middleware.go:117-120`,
`type client struct { limiter *rate.Limiter; lastSeen time.Time }`). -/
structure ClientEntry where
  limiter : TokenBucket
  lastSeen : ℚ
  deriving Repr, DecidableEq

/-- The client registry (`clients = make(map[string]*client)`,
`cmd/api/middleware.go:124`), modelled as an association list from IP
strings to entries; the operations below keep at most one binding per
key, matching Go map semantics. -/
abbrev Registry := List (String × ClientEntry)

namespace Registry

/-- Go map read `clients[ip]` (`cmd/api/middleware.go:154`). -/
def find? : Registry → String → Option ClientEntry
  | [], _ => none
  | (k, e) :: rest, ip => if k = ip then some e else find? rest ip

/-- Go map write `clients[ip] = ...`
(`cmd/api/middleware.go:155,158,161`): replace the binding if present,
insert it otherwise. -/
def set : Registry → String → ClientEntry → Registry
  | [], ip, e => [(ip, e)]
  | (k, v) :: rest, ip, e =>
    if k = ip then (ip, e) :: rest else (k, v) :: set rest ip e

end Registry

/-- The eviction sweep interval: `time.Sleep(time.Minute)`
(`cmd/api/middleware.go:130`), in seconds. -/
def sweepInterval : ℚ := 60

/-- The idle-eviction threshold: `3*time.Minute`
(`cmd/api/middleware.go:136`), in seconds. -/
def evictThreshold : ℚ := 180

/-- One pass of the background eviction goroutine
(`cmd/api/middleware.go:133-141`): under the registry lock, delete every
entry whose `lastSeen` is more than `evictThreshold` old; i.e. keep
exactly the entries with `now - lastSeen ≤ evictThreshold`. -/
def Registry.sweep (reg : Registry) (now : ℚ) : Registry :=
  reg.filter fun p => decide (now - p.2.lastSeen ≤ evictThreshold)

/-- The per-request critical section of the rate-limit middleware
(`cmd/api/middleware.go:150-165`, executed with `mu` held): look the
client IP up, creating a fresh limiter when absent
(`rate.NewLimiter(rate.Limit(rps), burst)`), refresh `lastSeen = now`,
and consult the limiter (`clients[ip].limiter.Allow()`). Returns the
admission decision and the updated registry. -/
def admitClient (rps : ℚ) (burst : ℕ) (reg : Registry) (ip : String) (now : ℚ) :
    Bool × Registry :=
  let e :=
    match reg.find? ip with
    | some e => e
    | none => { limiter := TokenBucket.fresh rps burst now, lastSeen := now }
  let (ok, b') := e.limiter.tryAcquire now
  (ok, reg.set ip { limiter := b', lastSeen := now })

/-- `n` requests from the same identity processed back to back at one
instant — the serialized order the registry mutex imposes on simultaneous
requests (spec §5; all `n` critical sections are identical, so every
interleaving of the lock queue yields this same fold). Counts how many are
admitted. -/
def admitMany (rps : ℚ) (burst : ℕ) (reg : Registry) (ip : String) (now : ℚ) :
    ℕ → ℕ × Registry
  | 0 => (0, reg)
  | n + 1 =>
    let (ok, reg') := admitClient rps burst reg ip now
    let (k, reg'') := admitMany rps burst reg' ip now n
    ((if ok then 1 else 0) + k, reg'')

/-- Modelled from the spec: the authenticated principal (spec §3
"Principal"). The user record itself lives in `internal/data/users.go`,
which is not among the provided sources; the spec requires an identity id
and an activation flag, plus a distinguished anonymous sentinel
(`data.AnonymousUser`). -/
structure User where
  id : ℤ
  activated : Bool
  deriving Repr, DecidableEq

/-- A principal is either the fixed anonymous sentinel or a user record. -/
inductive Principal where
  | anonymous
  | user (u : User)
  deriving Repr, DecidableEq

/-- `user.IsAnonymous()`: the principal is the anonymous sentinel. -/
def Principal.isAnonymous : Principal → Bool
  | .anonymous => true
  | .user _ => false

/-- `user.Activated`; the anonymous sentinel's activation flag is the Go
zero value `false`. -/
def Principal.activated : Principal → Bool
  | .anonymous => false
  | .user u => u.activated

/-- Result of `app.models.Users.GetForToken(scope, token)`
(`cmd/api/middleware.go:208`): the owning user, the `ErrRecordNotFound`
sentinel, or any other store error. -/
inductive GetResult where
  | found (u : User)
  | notFound
  | dbError
  deriving Repr, DecidableEq

/-- The external user/token store, abstracted as a function from scope and
plaintext token to a lookup result. -/
def GoStore := String → List Char → GetResult

/-- Modelled from the spec: the `data.ScopeAuthentication` constant (its
defining file `internal/data/users.go` is not among the provided sources;
spec §4.3: lookups are "scoped to an 'authentication' purpose"). -/
def scopeAuthentication : String := "authentication"

/-- `internal/validator/validator.go`: a validator is a map from keys to
error messages, modelled as an association list. -/
structure Validator where
  errors : List (String × String)
  deriving Repr, DecidableEq

namespace Validator

/-- `validator.New()` (`internal/validator/validator.go:19-21`). -/
def new : Validator := ⟨[]⟩

/-- `Valid()` (`internal/validator/validator.go:24-26`): no error entries. -/
def valid (v : Validator) : Bool := v.errors.isEmpty

/-- `AddError` (`internal/validator/validator.go:29-33`): add the message
only if the key is not already present. -/
def addError (v : Validator) (key message : String) : Validator :=
  if (v.errors.lookup key).isSome then v else ⟨v.errors ++ [(key, message)]⟩

/-- `Check` (`internal/validator/validator.go:36-40`). -/
def check (v : Validator) (ok : Bool) (key message : String) : Validator :=
  if ok then v else v.addError key message

end Validator

/-- `data.ValidateTokenPlaintext` (`internal/data/tokens.go:48-51`): the
token must be provided and be exactly 26 bytes long. Tokens are ASCII, so
Go's byte length is the character count. -/
def validateTokenPlaintext (v : Validator) (tokenPlaintext : List Char) :
    Validator :=
  (v.check (tokenPlaintext ≠ []) "token" "must be provided").check
    (tokenPlaintext.length = 26) "token" "must be 26 bytes long"

/-- The authenticate stage's shape check on a bearer token
(`cmd/api/middleware.go:201-206`): run `ValidateTokenPlaintext` on a fresh
validator and ask whether it is still valid. -/
def validTokenPlaintext (tokenPlaintext : List Char) : Bool :=
  (validateTokenPlaintext Validator.new tokenPlaintext).valid

/-- Go's `strings.Split(s, sep)` for a single-character separator
(`cmd/api/middleware.go:193`): split at every occurrence of `sep`,
keeping empty fields; the result always has at least one element. -/
def splitOnChar (sep : Char) (s : List Char) : List (List Char) :=
  go s []
where
  /-- `acc` holds the current field, reversed. -/
  go : List Char → List Char → List (List Char)
    | [], acc => [acc.reverse]
    | c :: cs, acc =>
      if c = sep then acc.reverse :: go cs [] else go cs (c :: acc)

/-- Observable side effects of one request's trip through the chain, used
to state ordering and shortcircuiting: taking the registry mutex
(`mu.Lock()`, `cmd/api/middleware.go:150`), the admission decision
(`cmd/api/middleware.go:161`), the three exits of the authenticate stage
(anonymous attach at `cmd/api/middleware.go:187`, malformed-credential
reject, and the store lookup at `cmd/api/middleware.go:208`), and reaching
a route handler. -/
inductive Ev where
  | lockAcquire
  | rateDecision (ip : String) (allowed : Bool)
  | authAnon
  | authReject
  | authLookup (token : List Char)
  | dispatch
  deriving Repr, DecidableEq

/-- The responses the modelled stages can produce (`cmd/api/errors.go`
helpers), plus the `panicSignal` pseudo-response that stands for an
unrecovered fault propagating out of a handler. -/
inductive Resp where
  | routeOk
  | tooManyRequests
  | invalidCredentials
  | invalidAuthToken
  | authenticationRequired
  | inactiveAccount
  | notPermitted
  | serverError (connClose : Bool)
  | panicSignal
  deriving Repr, DecidableEq

/-- An inbound request: resolved client IP (`realip.FromRequest`), arrival
time, the `Authorization` header value (`""`/`[]` when absent), the
request-context principal (`cmd/api/context.go`; `none` until the
authenticate stage attaches one), and whether the route handler faults on
this request (modelling device for panic recovery). -/
structure Request where
  ip : String
  now : ℚ
  authHeader : List Char
  principal : Option Principal := none
  panics : Bool := false

/-- A request handler: from request and registry state to emitted events,
updated registry and response. Middleware stages are functions from
handler to handler, applied once when the chain is built. -/
def Handler := Request → Registry → List Ev × Registry × Resp

/-- `app.contextSetUser` (`cmd/api/context.go:20-23`): a derived request
carrying the principal. -/
def contextSetUser (r : Request) (u : Principal) : Request :=
  { r with principal := some u }

/-- `app.contextGetUser` (`cmd/api/context.go:26-33`); the `none` case is
the `panic("missing user value in request context")` path, handled by the
callers below. -/
def contextGetUser (r : Request) : Option Principal := r.principal

/-- `app.recoverPanic` (`cmd/api/middleware.go:61-83`): run the inner
chain; if it panicked, set `Connection: close` and turn the fault into a
500 server-error response. -/
def recoverPanic (next : Handler) : Handler := fun r reg =>
  let (es, reg', resp) := next r reg
  (es, reg',
    match resp with
    | .panicSignal => .serverError true
    | resp => resp)

/-- `app.rateLimit` (`cmd/api/middleware.go:111-173`): when the limiter is
disabled in configuration the stage returns `next` itself at
chain-construction time (`cmd/api/middleware.go:113-115`); otherwise each
request locks the registry, runs the admission critical section, and
either short-circuits with 429 or proceeds. -/
def rateLimit (cfg : LimiterConfig) (next : Handler) : Handler :=
  if cfg.enabled = false then next
  else fun r reg =>
    let (ok, reg') := admitClient cfg.rps cfg.burst reg r.ip r.now
    if ok then
      let (es, reg'', resp) := next r reg'
      (Ev.lockAcquire :: Ev.rateDecision r.ip true :: es, reg'', resp)
    else
      ([Ev.lockAcquire, Ev.rateDecision r.ip false], reg', .tooManyRequests)

/-- `app.authenticate` (`cmd/api/middleware.go:175-224`): absent header →
attach the anonymous principal and proceed; header not of the two-part
`Bearer <token>` shape, or a token failing the plaintext shape check →
401 invalid-credentials; otherwise look the token up in the store under
the authentication scope: not-found → 401 invalid-token, other store
error → 500, found → attach the owning user and proceed. -/
def authenticate (store : GoStore) (next : Handler) : Handler := fun r reg =>
  if r.authHeader = [] then
    let (es, reg', resp) := next (contextSetUser r .anonymous) reg
    (Ev.authAnon :: es, reg', resp)
  else
    match splitOnChar ' ' r.authHeader with
    | [scheme, token] =>
      if scheme = "Bearer".data then
        if validTokenPlaintext token then
          match store scopeAuthentication token with
          | .found u =>
            let (es, reg', resp) := next (contextSetUser r (.user u)) reg
            (Ev.authLookup token :: es, reg', resp)
          | .notFound => ([Ev.authLookup token], reg, .invalidAuthToken)
          | .dbError => ([Ev.authLookup token], reg, .serverError false)
        else ([Ev.authReject], reg, .invalidCredentials)
      else ([Ev.authReject], reg, .invalidCredentials)
    | _ => ([Ev.authReject], reg, .invalidCredentials)

/-- `app.requireAuthenticatedUser` (`cmd/api/middleware.go:227-238`):
reject the anonymous sentinel with a 401 authentication-required
response; the `none` case is the `contextGetUser` panic. -/
def requireAuthenticatedUser (next : Handler) : Handler := fun r reg =>
  match contextGetUser r with
  | none => ([], reg, .panicSignal)
  | some u =>
    if u.isAnonymous then ([], reg, .authenticationRequired)
    else next r reg

/-- `app.requireActivatedUser` (`cmd/api/middleware.go:241-254`): wrap the
activation check in `requireAuthenticatedUser`. -/
def requireActivatedUser (next : Handler) : Handler :=
  requireAuthenticatedUser fun r reg =>
    match contextGetUser r with
    | none => ([], reg, .panicSignal)
    | some u =>
      if u.activated = false then ([], reg, .inactiveAccount)
      else next r reg

/-- `app.requirePermission` (`cmd/api/middleware.go:257-276`): the RBAC
body (`cmd/api/middleware.go:258-273`) is commented out in the source;
the function only delegates to `requireActivatedUser`. -/
def requirePermission (_code : String) (next : Handler) : Handler :=
  requireActivatedUser next

/-- An innermost route handler: reaching it is recorded as a `dispatch`
event; `r.panics` makes it fault (modelling a handler panic). -/
def routeCore : Handler := fun r reg =>
  ([Ev.dispatch], reg, if r.panics then .panicSignal else .routeOk)

/-- A movie route as registered in `routes()`: the handler wrapped in its
per-route authorization guard (`app.requireActivatedUser(...)`). -/
def dispatchRoute : Handler := requireActivatedUser routeCore

/-- `app.routes()` (the revision wiring the full chain): the middleware
composition `app.recoverPanic(app.rateLimit(app.authenticate(router)))`,
built once at startup. -/
def routesHandler (cfg : LimiterConfig) (store : GoStore) : Handler :=
  recoverPanic (rateLimit cfg (authenticate store dispatchRoute))

/-- `data.Permissions` (`internal/data/permissions.go:14`). -/
abbrev Permissions := List String

/-- `Permissions.Include` (`internal/data/permissions.go:17-19`):
`slices.Contains(p, code)`. -/
def Permissions.Include (p : Permissions) (code : String) : Bool :=
  p.contains code

/-- The `http.ResponseWriter` the server hands the chain, reduced to the
status-commit observable: `committed` is the status actually sent to the
client, `none` until the first header write. -/
structure UnderlyingWriter where
  committed : Option ℕ
  deriving Repr, DecidableEq

/-- `WriteHeader` on the raw writer: only the first call commits
(later calls are superfluous no-ops in `net/http`). -/
def UnderlyingWriter.writeHeader (w : UnderlyingWriter) (code : ℕ) :
    UnderlyingWriter :=
  match w.committed with
  | none => ⟨some code⟩
  | some _ => w

/-- `Write` on the raw writer: an implicit `WriteHeader(200)` when no
status was committed yet. -/
def UnderlyingWriter.write (w : UnderlyingWriter) : UnderlyingWriter :=
  match w.committed with
  | none => ⟨some 200⟩
  | some _ => w

/-- `metricsResponseWriter` (`cmd/api/middleware.go:20-24`): the wrapped
writer, the recorded status code and the header-written flag. -/
structure MetricsResponseWriter where
  wrapped : UnderlyingWriter
  statusCode : ℕ
  headerWritten : Bool
  deriving Repr, DecidableEq

/-- `newMetricsResponseWriter` (`cmd/api/middleware.go:26-31`): wrap `w`
with `statusCode` defaulted to 200. -/
def newMetricsResponseWriter (w : UnderlyingWriter) : MetricsResponseWriter :=
  { wrapped := w, statusCode := 200, headerWritten := false }

/-- `(*metricsResponseWriter).WriteHeader` (`cmd/api/middleware.go:40-47`):
pass through to the wrapped writer, and record the first status code. -/
def MetricsResponseWriter.writeHeader (mw : MetricsResponseWriter)
    (statusCode : ℕ) : MetricsResponseWriter :=
  let wrapped := mw.wrapped.writeHeader statusCode
  if mw.headerWritten then { mw with wrapped }
  else { wrapped, statusCode, headerWritten := true }

/-- `(*metricsResponseWriter).Write` (`cmd/api/middleware.go:51-54`): mark
the header as written and pass through. -/
def MetricsResponseWriter.write (mw : MetricsResponseWriter) :
    MetricsResponseWriter :=
  { mw with headerWritten := true, wrapped := mw.wrapped.write }

/-- What a downstream handler does to whatever response writer it is
handed: a sequence of header/body writes. -/
inductive WriterOp where
  | writeHeader (code : ℕ)
  | write
  deriving Repr, DecidableEq

/-- Apply downstream writes to the raw writer. -/
def UnderlyingWriter.applyOps (w : UnderlyingWriter) :
    List WriterOp → UnderlyingWriter
  | [] => w
  | .writeHeader c :: ops => (w.writeHeader c).applyOps ops
  | .write :: ops => w.write.applyOps ops

/-- Apply downstream writes through the metrics wrapper's methods. -/
def MetricsResponseWriter.applyOps (mw : MetricsResponseWriter) :
    List WriterOp → MetricsResponseWriter
  | [] => mw
  | .writeHeader c :: ops => (mw.writeHeader c).applyOps ops
  | .write :: ops => mw.write.applyOps ops

/-- The metrics middleware body as written
(`cmd/api/middleware.go:322-334`): build `mw := newMetricsResponseWriter w`
(line 326), invoke the inner chain with `w` — NOT `mw` — (line 328, so the
downstream writes `ops` hit the raw writer), then tick the per-status
counter under `mw.statusCode` (line 331). Returns (final raw writer,
status the counter is ticked under). -/
def metricsRun (ops : List WriterOp) : UnderlyingWriter × ℕ :=
  let w : UnderlyingWriter := ⟨none⟩
  let mw := newMetricsResponseWriter w
  let w' := w.applyOps ops
  (w', mw.statusCode)

/-- The status the downstream writes actually commit on the wire (200 when
the handler never sets one explicitly). -/
def downstreamStatus (ops : List WriterOp) : ℕ :=
  ((UnderlyingWriter.mk none).applyOps ops).committed.getD 200

/-- The same middleware body with the wrapper actually handed downstream
(`next.ServeHTTP(mw, r)`): what the wrapper's comments say the code is
meant to do. -/
def metricsRunWrapped (ops : List WriterOp) : ℕ :=
  ((newMetricsResponseWriter ⟨none⟩).applyOps ops).statusCode

namespace TokenBucket

theorem tryAcquire_lastRefill (b : TokenBucket) (now : ℚ) :
    (b.tryAcquire now).2.lastRefill = now := by
  unfold tryAcquire
  by_cases h : 1 ≤ min (b.tokens + (now - b.lastRefill) * b.refillRate) b.capacity <;>
    simp [h]

theorem tryAcquire_capacity (b : TokenBucket) (now : ℚ) :
    (b.tryAcquire now).2.capacity = b.capacity := by
  unfold tryAcquire
  by_cases h : 1 ≤ min (b.tokens + (now - b.lastRefill) * b.refillRate) b.capacity <;>
    simp [h]

theorem tryAcquire_refillRate (b : TokenBucket) (now : ℚ) :
    (b.tryAcquire now).2.refillRate = b.refillRate := by
  unfold tryAcquire
  by_cases h : 1 ≤ min (b.tokens + (now - b.lastRefill) * b.refillRate) b.capacity <;>
    simp [h]

/-- Acquiring at the very instant of the last refill adds no tokens: the
refilled count is just the current count (when it is below capacity). -/
theorem tryAcquire_same_instant (b : TokenBucket) (h : b.tokens ≤ b.capacity) :
    b.tryAcquire b.lastRefill =
      if 1 ≤ b.tokens then
        (true, { b with tokens := b.tokens - 1 })
      else
        (false, b) := by
  unfold tryAcquire
  have hm : min (b.tokens + (b.lastRefill - b.lastRefill) * b.refillRate) b.capacity
      = b.tokens := by
    rw [sub_self, zero_mul, add_zero, min_eq_left h]
  rw [hm]

/-- Draining a bucket that holds the natural number `k` of tokens at the
instant of its last refill: out of `n` immediate attempts, exactly
`min n k` are granted. -/
theorem acquireRun_drain (n : ℕ) :
    ∀ (b : TokenBucket) (k : ℕ), b.tokens = (k : ℚ) → b.tokens ≤ b.capacity →
      (b.acquireRun b.lastRefill n).1 = min n k ∧
      (b.acquireRun b.lastRefill n).2 =
        { b with tokens := ((k - min n k : ℕ) : ℚ) } := by
  induction n with
  | zero =>
    intro b k hk _
    refine ⟨by simp [acquireRun], ?_⟩
    simp only [acquireRun, Nat.zero_min, Nat.sub_zero, ← hk]
  | succ n ih =>
    intro b k hk hcap
    have hstep := tryAcquire_same_instant b hcap
    cases k with
    | zero =>
      rw [if_neg (by rw [hk]; norm_num)] at hstep
      have ihb := ih b 0 hk hcap
      refine ⟨?_, ?_⟩
      · simp [acquireRun, hstep, ihb.1]
      · simp only [acquireRun, hstep]
        rw [ihb.2]
        simp
    | succ m =>
      have h1 : (1 : ℚ) ≤ b.tokens := by rw [hk]; push_cast; linarith
      rw [if_pos h1] at hstep
      have hb' : ({ b with tokens := b.tokens - 1 } : TokenBucket)
          = { b with tokens := ((m : ℕ) : ℚ) } := by
        simp only [TokenBucket.mk.injEq, and_true, true_and, hk]
        push_cast; ring
      rw [hb'] at hstep
      have ihm := ih { b with tokens := ((m : ℕ) : ℚ) } m rfl
        (by simpa using le_trans (by rw [hk]; push_cast; linarith) hcap)
      refine ⟨?_, ?_⟩
      · simp only [acquireRun, hstep, ihm.1]
        simp only [if_true]
        omega
      · simp only [acquireRun, hstep]
        rw [ihm.2]
        simp only [TokenBucket.mk.injEq, and_true, true_and]
        congr 1
        omega

/-- The grant decision of `tryAcquire` is exactly "refilled count at least
1", and a denial leaves the refilled count undebited. -/
theorem tryAcquire_spec (b : TokenBucket) (now : ℚ) :
    ((b.tryAcquire now).1 = true ↔
      1 ≤ min (b.tokens + (now - b.lastRefill) * b.refillRate) b.capacity) ∧
    ((b.tryAcquire now).1 = false →
      (b.tryAcquire now).2.tokens =
        min (b.tokens + (now - b.lastRefill) * b.refillRate) b.capacity) ∧
    ((b.tryAcquire now).1 = true →
      (b.tryAcquire now).2.tokens =
        min (b.tokens + (now - b.lastRefill) * b.refillRate) b.capacity - 1) := by
  unfold tryAcquire
  by_cases h : 1 ≤ min (b.tokens + (now - b.lastRefill) * b.refillRate) b.capacity <;>
    simp [h]

/-- One acquire step preserves the bucket invariant (the refill saturates
at `capacity`, and a debit happens only when at least one token is
present). -/
theorem tryAcquire_inv (b : TokenBucket) (now : ℚ) (hR : 0 ≤ b.refillRate)
    (ht : b.lastRefill ≤ now) (h : b.Inv) : (b.tryAcquire now).2.Inv := by
  obtain ⟨h0, hc⟩ := h
  have hcap0 : 0 ≤ b.capacity := le_trans h0 hc
  have hx : 0 ≤ b.tokens + (now - b.lastRefill) * b.refillRate :=
    add_nonneg h0 (mul_nonneg (sub_nonneg.mpr ht) hR)
  have hmin0 : 0 ≤ min (b.tokens + (now - b.lastRefill) * b.refillRate) b.capacity :=
    le_min hx hcap0
  have hminc : min (b.tokens + (now - b.lastRefill) * b.refillRate) b.capacity
      ≤ b.capacity := min_le_right _ _
  unfold tryAcquire
  by_cases h1 : 1 ≤ min (b.tokens + (now - b.lastRefill) * b.refillRate) b.capacity
  · simp only [if_pos h1]
    exact ⟨by dsimp only; linarith, by dsimp only; linarith⟩
  · simp only [if_neg h1]
    exact ⟨hmin0, hminc⟩

theorem timeOk_append_left :
    ∀ (ts₁ ts₂ : List ℚ) (p : ℚ), timeOk p (ts₁ ++ ts₂) = true →
      timeOk p ts₁ = true := by
  intro ts₁
  induction ts₁ with
  | nil => intro ts₂ p _; rfl
  | cons t ts ih =>
    intro ts₂ p h
    simp only [List.cons_append, timeOk, Bool.and_eq_true] at h ⊢
    exact ⟨h.1, ih ts₂ t h.2⟩

/-- The invariant is preserved by any monotone-in-time sequence of acquire
attempts. -/
theorem applyAll_inv :
    ∀ (ts : List ℚ) (b : TokenBucket), 0 ≤ b.refillRate → b.Inv →
      timeOk b.lastRefill ts = true → (b.applyAll ts).Inv := by
  intro ts
  induction ts with
  | nil => intro b _ h _; exact h
  | cons t ts ih =>
    intro b hR hInv hok
    simp only [timeOk, Bool.and_eq_true, decide_eq_true_eq] at hok
    have hstep := tryAcquire_inv b t hR hok.1 hInv
    have hlr := tryAcquire_lastRefill b t
    have hrr := tryAcquire_refillRate b t
    exact ih (b.tryAcquire t).2 (hrr ▸ hR) hstep (by rw [hlr]; exact hok.2)

end TokenBucket

/-- Claim C4: for every token bucket and every monotone sequence of
acquire operations, `0 ≤ tokens ≤ capacity` holds after every operation —
the saturating refill never pushes the count above capacity no matter how
long the idle gap before a call, and the count never goes negative. -/
theorem tokenBucket_invariant (b : TokenBucket) (ts : List ℚ)
    (hR : 0 ≤ b.refillRate) (hInv : b.Inv)
    (hts : TokenBucket.timeOk b.lastRefill ts = true) :
    ∀ ts₁ ts₂ : List ℚ, ts = ts₁ ++ ts₂ → (b.applyAll ts₁).Inv := by
  intro ts₁ ts₂ hsplit
  exact TokenBucket.applyAll_inv ts₁ b hR hInv
    (TokenBucket.timeOk_append_left ts₁ ts₂ b.lastRefill (hsplit ▸ hts))

/-- Counterexample for C3 as stated: a full capacity-2, rate-1 bucket is
drained at time 0 (2 of 3 immediate calls succeed), and after waiting 2
seconds — which is at least `1/R = 1` — TWO further immediate calls
succeed, not "exactly one more". -/
theorem tokenBucket_wait_counterexample :
    ((TokenBucket.fresh 1 2 0).acquireRun 0 3).1 = 2 ∧
    (1 : ℚ) / 1 ≤ 2 ∧
    (((TokenBucket.fresh 1 2 0).acquireRun 0 3).2.acquireRun 2 2).1 = 2 := by
  refine ⟨?_, by norm_num, ?_⟩ <;>
    norm_num [TokenBucket.fresh, TokenBucket.acquireRun, TokenBucket.tryAcquire,
      min_def]

/-- Claim C3 (amended): an acquire attempt refills by `elapsed * R` capped
at the capacity, succeeds iff the refilled count is at least 1 (debiting
one token), and on denial leaves the refilled count unchanged; from a full
bucket of capacity `C ≥ 1`, `C` consecutive immediate calls all succeed,
the `(C+1)`th immediate call fails, and after waiting at least `1/R`
seconds at least one more call succeeds — exactly one more when the wait
is moreover less than `2/R` (a longer wait refills more than one token, so
more than one further call can succeed). -/
theorem tokenBucket_burst_then_refill (C : ℕ) (R wait t0 : ℚ)
    (hC : 1 ≤ C) (hR : 0 < R) (hw : 1 / R ≤ wait) :
    (∀ (b : TokenBucket) (t : ℚ),
      ((b.tryAcquire t).1 = true ↔
        1 ≤ min (b.tokens + (t - b.lastRefill) * b.refillRate) b.capacity) ∧
      ((b.tryAcquire t).1 = false →
        (b.tryAcquire t).2.tokens =
          min (b.tokens + (t - b.lastRefill) * b.refillRate) b.capacity)) ∧
    ((TokenBucket.fresh R C t0).acquireRun t0 C).1 = C ∧
    (((TokenBucket.fresh R C t0).acquireRun t0 C).2.tryAcquire t0).1 = false ∧
    ((((TokenBucket.fresh R C t0).acquireRun t0 C).2.tryAcquire (t0 + wait)).1
      = true) ∧
    (wait < 2 / R →
      ((((TokenBucket.fresh R C t0).acquireRun t0 C).2.tryAcquire
        (t0 + wait)).2.tryAcquire (t0 + wait)).1 = false) := by
  have hC1 : (1 : ℚ) ≤ (C : ℚ) := by exact_mod_cast hC
  have hdrain := TokenBucket.acquireRun_drain C (TokenBucket.fresh R C t0) C
    rfl le_rfl
  have hb3 : ((TokenBucket.fresh R C t0).acquireRun t0 C).2 =
      { capacity := (C : ℚ), refillRate := R, tokens := 0, lastRefill := t0 } := by
    have h2 := hdrain.2
    simp only [TokenBucket.fresh] at h2 ⊢
    rw [h2]
    simp
  have hcount : ((TokenBucket.fresh R C t0).acquireRun t0 C).1 = C := by
    have h1 := hdrain.1
    simp only [TokenBucket.fresh] at h1 ⊢
    rw [h1, min_self]
  have hwR : 1 ≤ wait * R := by
    rw [div_le_iff₀ hR] at hw
    linarith
  have hrefill : (0 : ℚ) + (t0 + wait - t0) * R = wait * R := by ring
  have hstep0 : (⟨(C : ℚ), R, 0, t0⟩ : TokenBucket).tryAcquire t0 =
      (false, (⟨(C : ℚ), R, 0, t0⟩ : TokenBucket)) := by
    have h := TokenBucket.tryAcquire_same_instant
      (⟨(C : ℚ), R, 0, t0⟩ : TokenBucket) (by dsimp only; positivity)
    rw [if_neg (by dsimp only; norm_num)] at h
    exact h
  have hstep1 : (⟨(C : ℚ), R, 0, t0⟩ : TokenBucket).tryAcquire (t0 + wait) =
      (true, (⟨(C : ℚ), R, min (wait * R) (C : ℚ) - 1, t0 + wait⟩ : TokenBucket)) := by
    unfold TokenBucket.tryAcquire
    dsimp only
    rw [hrefill, if_pos (le_min hwR hC1)]
  refine ⟨fun b t => ⟨?_, ?_⟩, hcount, ?_, ?_, ?_⟩
  · exact ⟨fun h => ((TokenBucket.tryAcquire_spec b t).1).mp h,
      fun h => ((TokenBucket.tryAcquire_spec b t).1).mpr h⟩
  · exact (TokenBucket.tryAcquire_spec b t).2.1
  · rw [hb3, hstep0]
  · rw [hb3, hstep1]
  · intro hvw
    have hwR2 : wait * R < 2 := by
      rw [lt_div_iff₀ hR] at hvw
      linarith
    rw [hb3, hstep1]
    have hml := min_le_left (wait * R) (C : ℚ)
    have h := TokenBucket.tryAcquire_same_instant
      (⟨(C : ℚ), R, min (wait * R) (C : ℚ) - 1, t0 + wait⟩ : TokenBucket)
      (by dsimp only; linarith [min_le_right (wait * R) (C : ℚ)])
    rw [if_neg (by dsimp only; linarith)] at h
    rw [h]

/-- Witness for C3 (amended): capacity 1, rate 1, draining at time 0 and
waiting exactly `1/R` seconds. -/
theorem tokenBucket_burst_then_refill_witness :
    (1 ≤ 1) ∧ ((0 : ℚ) < 1) ∧ ((1 : ℚ) / 1 ≤ 1 / 1) ∧
    (((TokenBucket.fresh 1 1 0).acquireRun 0 1).1 = 1 ∧
      (((TokenBucket.fresh 1 1 0).acquireRun 0 1).2.tryAcquire 0).1 = false ∧
      ((((TokenBucket.fresh 1 1 0).acquireRun 0 1).2.tryAcquire
        (0 + 1 / 1)).1 = true)) :=
  ⟨by decide, by decide, le_refl _,
    (tokenBucket_burst_then_refill 1 1 (1 / 1) 0 (by decide) (by decide)
      (le_refl _)).2.1,
    (tokenBucket_burst_then_refill 1 1 (1 / 1) 0 (by decide) (by decide)
      (le_refl _)).2.2.1,
    (tokenBucket_burst_then_refill 1 1 (1 / 1) 0 (by decide) (by decide)
      (le_refl _)).2.2.2.1⟩

/-- Witness for C4: a capacity-2, rate-1 bucket, acquiring at times 0 and
then 5 (an idle gap longer than needed to refill past capacity), keeps
the invariant after the first operation. -/
theorem tokenBucket_invariant_witness :
    (0 : ℚ) ≤ (1 : ℚ) ∧
    (TokenBucket.mk 2 1 2 0).Inv ∧
    TokenBucket.timeOk (TokenBucket.mk 2 1 2 0).lastRefill [0, 5] = true ∧
    ((TokenBucket.mk 2 1 2 0).applyAll [0]).Inv :=
  ⟨by decide, by decide, by decide,
    tokenBucket_invariant (TokenBucket.mk 2 1 2 0) [0, 5] (by decide)
      (by decide) (by decide) [0] [5] rfl⟩

theorem Registry.find?_set_self (reg : Registry) (ip : String)
    (e : ClientEntry) : Registry.find? (Registry.set reg ip e) ip = some e := by
  induction reg with
  | nil => simp [Registry.set, Registry.find?]
  | cons p rest ih =>
    obtain ⟨k, v⟩ := p
    by_cases h : k = ip
    · simp [Registry.set, Registry.find?, h]
    · simp [Registry.set, Registry.find?, h, ih]

theorem Registry.set_set (reg : Registry) (ip : String) (e e' : ClientEntry) :
    Registry.set (Registry.set reg ip e) ip e' = Registry.set reg ip e' := by
  induction reg with
  | nil => simp [Registry.set]
  | cons p rest ih =>
    obtain ⟨k, v⟩ := p
    by_cases h : k = ip
    · simp [Registry.set, h]
    · simp [Registry.set, h, ih]

theorem Registry.find?_eq_none (reg : Registry) (ip : String)
    (h : ∀ p ∈ reg, p.1 ≠ ip) : Registry.find? reg ip = none := by
  induction reg with
  | nil => rfl
  | cons p rest ih =>
    obtain ⟨k, v⟩ := p
    have hk : k ≠ ip := h (k, v) (List.mem_cons_self _ _)
    simp only [Registry.find?, if_neg hk]
    exact ih fun q hq => h q (List.mem_cons_of_mem _ hq)

/-- With unique keys, filtering out the binding of `ip` makes `ip`
unfindable. -/
theorem Registry.find?_filter_none (reg : Registry) (ip : String)
    (e : ClientEntry) (p : String × ClientEntry → Bool)
    (hnd : (reg.map Prod.fst).Nodup) (hf : Registry.find? reg ip = some e)
    (hp : p (ip, e) = false) : Registry.find? (reg.filter p) ip = none := by
  induction reg with
  | nil => simp [Registry.find?] at hf
  | cons q rest ih =>
    obtain ⟨k, v⟩ := q
    simp only [List.map_cons, List.nodup_cons] at hnd
    by_cases hk : k = ip
    · subst hk
      simp [Registry.find?] at hf
      subst hf
      rw [List.filter_cons, if_neg (by simp [hp])]
      refine Registry.find?_eq_none _ _ fun q hq => ?_
      have := List.mem_of_mem_filter hq
      intro hq1
      exact hnd.1 (hq1 ▸ List.mem_map_of_mem Prod.fst this)
    · simp only [Registry.find?, if_neg hk] at hf
      rw [List.filter_cons]
      by_cases hkeep : p (k, v) = true
      · rw [if_pos (by simp [hkeep])]
        simp only [Registry.find?, if_neg hk]
        exact ih hnd.2 hf
      · rw [if_neg (by simpa using hkeep)]
        exact ih hnd.2 hf

/-- Claim C6: an entry whose `lastSeen` is more than the 3-minute eviction
threshold old at sweep time is removed by the sweep (which runs every
`sweepInterval`, with `evictThreshold = 3 * sweepInterval`), and a
subsequent request from that identity goes through the absent-then-create
path: it gets a brand-new full-capacity bucket and is admitted. -/
theorem rateLimit_eviction (reg : Registry) (ip : String) (e : ClientEntry)
    (now now' : ℚ) (rps : ℚ) (burst : ℕ)
    (hnd : (reg.map Prod.fst).Nodup)
    (hfind : Registry.find? reg ip = some e)
    (hidle : evictThreshold < now - e.lastSeen)
    (hburst : 1 ≤ burst) :
    Registry.find? (Registry.sweep reg now) ip = none ∧
    (admitClient rps burst (Registry.sweep reg now) ip now').1 = true ∧
    (Registry.find? (admitClient rps burst (Registry.sweep reg now) ip now').2 ip =
      some ⟨((TokenBucket.fresh rps burst now').tryAcquire now').2, now'⟩) ∧
    evictThreshold = 3 * sweepInterval := by
  have hnone : Registry.find? (Registry.sweep reg now) ip = none := by
    refine Registry.find?_filter_none reg ip e _ hnd hfind ?_
    simp only [decide_eq_false_iff_not, not_le]
    exact hidle
  have hstep : ((TokenBucket.fresh rps burst now').tryAcquire now').1 = true := by
    have h := TokenBucket.tryAcquire_same_instant
      (TokenBucket.fresh rps burst now') le_rfl
    rw [if_pos (by simp only [TokenBucket.fresh]; exact_mod_cast hburst)] at h
    have hlr : (TokenBucket.fresh rps burst now').lastRefill = now' := rfl
    rw [hlr] at h
    rw [h]
  refine ⟨hnone, ?_, ?_, by norm_num [evictThreshold, sweepInterval]⟩
  · simp only [admitClient, hnone]
    exact hstep
  · simp only [admitClient, hnone]
    exact Registry.find?_set_self _ _ _

/-- Witness for C6: a one-entry registry whose entry has been idle 181
seconds at sweep time. -/
theorem rateLimit_eviction_witness :
    ((([("10.0.0.1", ⟨TokenBucket.mk 4 2 4 0, 0⟩)] :
        Registry).map Prod.fst).Nodup) ∧
    (Registry.find? [("10.0.0.1", ⟨TokenBucket.mk 4 2 4 0, 0⟩)]
        "10.0.0.1" = some ⟨TokenBucket.mk 4 2 4 0, 0⟩) ∧
    (evictThreshold < (181 : ℚ) - (⟨TokenBucket.mk 4 2 4 0, 0⟩ :
        ClientEntry).lastSeen) ∧
    (1 ≤ 4) ∧
    (Registry.find? (Registry.sweep
        [("10.0.0.1", ⟨TokenBucket.mk 4 2 4 0, 0⟩)] 181) "10.0.0.1" = none ∧
      (admitClient 2 4 (Registry.sweep
        [("10.0.0.1", ⟨TokenBucket.mk 4 2 4 0, 0⟩)] 181) "10.0.0.1" 300).1
        = true) :=
  ⟨by decide, by decide, by norm_num [evictThreshold], by decide,
    (rateLimit_eviction [("10.0.0.1", ⟨TokenBucket.mk 4 2 4 0, 0⟩)]
      "10.0.0.1" ⟨TokenBucket.mk 4 2 4 0, 0⟩ 181 300 2 4 (by decide)
      (by decide) (by norm_num [evictThreshold]) (by decide)).1,
    (rateLimit_eviction [("10.0.0.1", ⟨TokenBucket.mk 4 2 4 0, 0⟩)]
      "10.0.0.1" ⟨TokenBucket.mk 4 2 4 0, 0⟩ 181 300 2 4 (by decide)
      (by decide) (by norm_num [evictThreshold]) (by decide)).2.1⟩

theorem acquireRun_succ_eq (b : TokenBucket) (now : ℚ) (n : ℕ) :
    b.acquireRun now (n + 1) =
      ((if (b.tryAcquire now).1 then 1 else 0) +
        ((b.tryAcquire now).2.acquireRun now n).1,
        ((b.tryAcquire now).2.acquireRun now n).2) := by
  rcases h : b.tryAcquire now with ⟨ok, b'⟩
  simp [TokenBucket.acquireRun, h]

theorem admitMany_succ_eq (rps : ℚ) (burst : ℕ) (reg : Registry)
    (ip : String) (now : ℚ) (n : ℕ) :
    admitMany rps burst reg ip now (n + 1) =
      ((if (admitClient rps burst reg ip now).1 then 1 else 0) +
        (admitMany rps burst (admitClient rps burst reg ip now).2 ip now n).1,
        (admitMany rps burst (admitClient rps burst reg ip now).2 ip now n).2) := by
  rcases h : admitClient rps burst reg ip now with ⟨ok, reg'⟩
  simp [admitMany, h]

theorem admitClient_found_eq (reg : Registry) (ip : String) (e : ClientEntry)
    (rps : ℚ) (burst : ℕ) (now : ℚ)
    (hfound : Registry.find? reg ip = some e) :
    admitClient rps burst reg ip now =
      ((e.limiter.tryAcquire now).1,
        Registry.set reg ip ⟨(e.limiter.tryAcquire now).2, now⟩) := by
  rcases hstep : e.limiter.tryAcquire now with ⟨ok, b'⟩
  simp [admitClient, hfound, hstep]

theorem admitClient_none_eq (reg : Registry) (ip : String)
    (rps : ℚ) (burst : ℕ) (now : ℚ)
    (hfound : Registry.find? reg ip = none) :
    admitClient rps burst reg ip now =
      (((TokenBucket.fresh rps burst now).tryAcquire now).1,
        Registry.set reg ip
          ⟨((TokenBucket.fresh rps burst now).tryAcquire now).2, now⟩) := by
  rcases hstep : (TokenBucket.fresh rps burst now).tryAcquire now with ⟨ok, b'⟩
  simp [admitClient, hfound, hstep]

/-- Serialized back-to-back admissions against an existing entry behave
like a same-instant acquire run on that entry's bucket. -/
theorem admitMany_set (n : ℕ) :
    ∀ (reg : Registry) (ip : String) (e : ClientEntry) (rps : ℚ) (burst : ℕ)
      (now : ℚ),
      (admitMany rps burst (Registry.set reg ip e) ip now (n + 1)).1 =
        (e.limiter.acquireRun now (n + 1)).1 ∧
      (admitMany rps burst (Registry.set reg ip e) ip now (n + 1)).2 =
        Registry.set reg ip ⟨(e.limiter.acquireRun now (n + 1)).2, now⟩ := by
  induction n with
  | zero =>
    intro reg ip e rps burst now
    rw [admitMany_succ_eq,
      admitClient_found_eq _ ip e rps burst now (Registry.find?_set_self reg ip e),
      acquireRun_succ_eq]
    simp [admitMany, TokenBucket.acquireRun, Registry.set_set]
  | succ n ih =>
    intro reg ip e rps burst now
    rw [admitMany_succ_eq,
      admitClient_found_eq _ ip e rps burst now (Registry.find?_set_self reg ip e),
      acquireRun_succ_eq]
    dsimp only
    rw [Registry.set_set]
    have ihb := ih reg ip ⟨(e.limiter.tryAcquire now).2, now⟩ rps burst now
    dsimp only at ihb
    rw [ihb.1, ihb.2]
    exact ⟨rfl, rfl⟩

/-- Claim C5: the registry lock serializes simultaneous same-identity
requests into some back-to-back order of identical critical sections
(`admitMany`); for `N > C` such requests hitting a not-yet-present (hence
freshly created, full) bucket of capacity `C ≥ 1`, exactly `C` are
admitted, the final token count is exactly 0 (not corrupted), and every
denied admission produces the 429 rate-limit response and stops the
chain. -/
theorem rateLimit_simultaneous_requests (rps : ℚ) (C N : ℕ) (reg : Registry)
    (ip : String) (now : ℚ)
    (hfresh : Registry.find? reg ip = none) (hC : 1 ≤ C) (hN : C < N) :
    (admitMany rps C reg ip now N).1 = C ∧
    (∃ e, Registry.find? (admitMany rps C reg ip now N).2 ip = some e ∧
      e.limiter.tokens = 0) ∧
    (∀ (cfg : LimiterConfig) (next : Handler) (req : Request)
      (reg' : Registry),
      cfg.enabled = true →
      (admitClient cfg.rps cfg.burst reg' req.ip req.now).1 = false →
      rateLimit cfg next req reg' =
        ([Ev.lockAcquire, Ev.rateDecision req.ip false],
          (admitClient cfg.rps cfg.burst reg' req.ip req.now).2,
          Resp.tooManyRequests)) := by
  obtain ⟨m, rfl⟩ : ∃ m, N = m + 2 := ⟨N - 2, by omega⟩
  have hC1 : (1 : ℚ) ≤ ((C : ℕ) : ℚ) := by exact_mod_cast hC
  -- the first admission creates the fresh bucket and debits one token
  have hstep1 : (TokenBucket.fresh rps C now).tryAcquire now =
      (true, (⟨(C : ℚ), rps, ((C - 1 : ℕ) : ℚ), now⟩ : TokenBucket)) := by
    have h := TokenBucket.tryAcquire_same_instant
      (TokenBucket.fresh rps C now) le_rfl
    rw [if_pos (by simp only [TokenBucket.fresh]; exact hC1)] at h
    have hb' : ({ (TokenBucket.fresh rps C now) with
        tokens := (TokenBucket.fresh rps C now).tokens - 1 } : TokenBucket) =
        (⟨(C : ℚ), rps, ((C - 1 : ℕ) : ℚ), now⟩ : TokenBucket) := by
      simp only [TokenBucket.fresh, TokenBucket.mk.injEq, and_true, true_and]
      push_cast [Nat.cast_sub hC]
      ring
    rw [hb'] at h
    exact h
  have hdrain := TokenBucket.acquireRun_drain (m + 1)
    (⟨(C : ℚ), rps, ((C - 1 : ℕ) : ℚ), now⟩ : TokenBucket) (C - 1) rfl
    (by dsimp only; exact_mod_cast Nat.sub_le C 1)
  dsimp only at hdrain
  have hmin : min (m + 1) (C - 1) = C - 1 := by omega
  have hset := admitMany_set m reg ip
    ⟨(⟨(C : ℚ), rps, ((C - 1 : ℕ) : ℚ), now⟩ : TokenBucket), now⟩ rps C now
  dsimp only at hset
  have hfirst := admitClient_none_eq reg ip rps C now hfresh
  rw [hstep1] at hfirst
  refine ⟨?_, ?_, ?_⟩
  · rw [admitMany_succ_eq, hfirst]
    dsimp only
    rw [hset.1, hdrain.1, hmin]
    simp only [if_true]
    omega
  · rw [admitMany_succ_eq, hfirst]
    dsimp only
    rw [hset.2]
    refine ⟨⟨((⟨(C : ℚ), rps, ((C - 1 : ℕ) : ℚ), now⟩ :
      TokenBucket).acquireRun now (m + 1)).2, now⟩,
      Registry.find?_set_self _ _ _, ?_⟩
    dsimp only
    rw [hdrain.2, hmin]
    simp
  · intro cfg next req reg' hen hdeny
    rcases hadm : admitClient cfg.rps cfg.burst reg' req.ip req.now with ⟨ok, reg2⟩
    rw [hadm] at hdeny
    simp only at hdeny
    subst hdeny
    simp only [rateLimit, hen]
    simp only [Bool.true_eq_false, if_false, hadm]
    simp

/-- Witness for C5: three simultaneous requests against a fresh bucket of
capacity 2 — exactly two are admitted. -/
theorem rateLimit_simultaneous_requests_witness :
    (Registry.find? [] "10.0.0.1" = none) ∧ (1 ≤ 2) ∧ (2 < 3) ∧
    (admitMany 2 2 [] "10.0.0.1" 0 3).1 = 2 :=
  ⟨rfl, by decide, by decide,
    (rateLimit_simultaneous_requests 2 2 3 [] "10.0.0.1" 0 rfl (by decide)
      (by decide)).1⟩

theorem routeCore_shape (req : Request) (reg : Registry) :
    (routeCore req reg).1 = [Ev.dispatch] ∧ (routeCore req reg).2.1 = reg := by
  simp [routeCore]

/-- A guarded route either rejects without events or dispatches; it never
touches the registry. -/
theorem dispatchRoute_shape (req : Request) (reg : Registry) :
    (dispatchRoute req reg).2.1 = reg ∧
    ((dispatchRoute req reg).1 = [] ∨ (dispatchRoute req reg).1 = [Ev.dispatch]) := by
  rcases hp : req.principal with _ | p
  · simp [dispatchRoute, requireActivatedUser, requireAuthenticatedUser,
      contextGetUser, hp]
  · rcases p with _ | u
    · simp [dispatchRoute, requireActivatedUser, requireAuthenticatedUser,
        contextGetUser, hp, Principal.isAnonymous]
    · by_cases ha : u.activated = false
      · simp [dispatchRoute, requireActivatedUser, requireAuthenticatedUser,
          contextGetUser, hp, Principal.isAnonymous, Principal.activated, ha]
      · simp [dispatchRoute, requireActivatedUser, requireAuthenticatedUser,
          contextGetUser, hp, Principal.isAnonymous, Principal.activated, ha,
          routeCore]

/-- The authenticate-plus-route inner chain emits only authentication and
dispatch events and leaves the registry untouched. -/
theorem authenticate_inner_shape (store : GoStore) (req : Request)
    (reg : Registry) :
    (authenticate store dispatchRoute req reg).2.1 = reg ∧
    (∀ e ∈ (authenticate store dispatchRoute req reg).1,
      e = Ev.authAnon ∨ e = Ev.authReject ∨ (∃ t, e = Ev.authLookup t) ∨
        e = Ev.dispatch) := by
  by_cases hh : req.authHeader = []
  · have hd := dispatchRoute_shape (contextSetUser req .anonymous) reg
    refine ⟨by simp [authenticate, hh, hd.1], ?_⟩
    intro e he
    simp only [authenticate, if_pos hh, List.mem_cons] at he
    rcases he with he | he
    · exact Or.inl he
    · rcases hd.2 with htr | htr
      · rw [htr] at he; simp at he
      · rw [htr] at he; simp at he; subst he
        exact Or.inr (Or.inr (Or.inr rfl))
  · rcases hs : splitOnChar ' ' req.authHeader with _ | ⟨s, _ | ⟨t, _ | ⟨c, cs⟩⟩⟩
    · refine ⟨by simp [authenticate, hh, hs], ?_⟩
      intro e he
      simp [authenticate, hh, hs] at he
      subst he; exact Or.inr (Or.inl rfl)
    · refine ⟨by simp [authenticate, hh, hs], ?_⟩
      intro e he
      simp [authenticate, hh, hs] at he
      subst he; exact Or.inr (Or.inl rfl)
    · by_cases hb : s = "Bearer".data
      · by_cases hv : validTokenPlaintext t = true
        · rcases hst : store scopeAuthentication t with u | _ | _
          · have hd := dispatchRoute_shape (contextSetUser req (.user u)) reg
            refine ⟨by simp [authenticate, hh, hs, hb, hv, hst, hd.1], ?_⟩
            intro e he
            simp only [authenticate, if_neg hh, hs, if_pos hb, hv, if_true,
              hst, List.mem_cons] at he
            rcases he with he | he
            · exact Or.inr (Or.inr (Or.inl ⟨t, he⟩))
            · rcases hd.2 with htr | htr
              · rw [htr] at he; simp at he
              · rw [htr] at he; simp at he; subst he
                exact Or.inr (Or.inr (Or.inr rfl))
          · refine ⟨by simp [authenticate, hh, hs, hb, hv, hst], ?_⟩
            intro e he
            simp [authenticate, hh, hs, hb, hv, hst] at he
            subst he; exact Or.inr (Or.inr (Or.inl ⟨t, rfl⟩))
          · refine ⟨by simp [authenticate, hh, hs, hb, hv, hst], ?_⟩
            intro e he
            simp [authenticate, hh, hs, hb, hv, hst] at he
            subst he; exact Or.inr (Or.inr (Or.inl ⟨t, rfl⟩))
        · refine ⟨by simp [authenticate, hh, hs, hb, hv], ?_⟩
          intro e he
          simp [authenticate, hh, hs, hb, hv] at he
          subst he; exact Or.inr (Or.inl rfl)
      · refine ⟨by simp [authenticate, hh, hs, hb], ?_⟩
        intro e he
        simp [authenticate, hh, hs, hb] at he
        subst he; exact Or.inr (Or.inl rfl)
    · refine ⟨by simp [authenticate, hh, hs], ?_⟩
      intro e he
      simp [authenticate, hh, hs] at he
      subst he; exact Or.inr (Or.inl rfl)

theorem recoverPanic_eq (next : Handler) (r : Request) (g : Registry) :
    recoverPanic next r g =
      ((next r g).1, (next r g).2.1,
        match (next r g).2.2 with
        | .panicSignal => .serverError true
        | resp => resp) := by
  rcases h : next r g with ⟨es, g', resp⟩
  simp [recoverPanic, h]

theorem recoverPanic_no_panic (next : Handler) (r : Request) (g : Registry) :
    (recoverPanic next r g).2.2 ≠ Resp.panicSignal := by
  rw [recoverPanic_eq]
  rcases (next r g).2.2 <;> simp

/-- The per-request body of the enabled rate-limit stage. -/
theorem rateLimit_enabled_eq (cfg : LimiterConfig) (next : Handler)
    (r : Request) (g : Registry) (hen : cfg.enabled = true) :
    rateLimit cfg next r g =
      if (admitClient cfg.rps cfg.burst g r.ip r.now).1 then
        (Ev.lockAcquire :: Ev.rateDecision r.ip true ::
            (next r (admitClient cfg.rps cfg.burst g r.ip r.now).2).1,
          (next r (admitClient cfg.rps cfg.burst g r.ip r.now).2).2.1,
          (next r (admitClient cfg.rps cfg.burst g r.ip r.now).2).2.2)
      else
        ([Ev.lockAcquire, Ev.rateDecision r.ip false],
          (admitClient cfg.rps cfg.burst g r.ip r.now).2, Resp.tooManyRequests) := by
  rcases hadm : admitClient cfg.rps cfg.burst g r.ip r.now with ⟨ok, g'⟩
  rcases ok with _ | _
  · simp [rateLimit, hen, hadm]
  · rcases hnx : next r g' with ⟨es, g'', resp⟩
    simp [rateLimit, hen, hadm, hnx]

/-- Claim C1: `routes()` composes the stages once at startup in the fixed
order PanicRecovery outermost, then RateLimit, then Authenticate, then
route dispatch with per-route authorization innermost; for every request
with the limiter enabled, the trace starts with the lock/rate-decision
events, every authentication or dispatch event comes strictly after them,
a rate-limit denial short-circuits before authentication runs, and panic
recovery guarantees no fault signal escapes the chain. -/
theorem middleware_chain_order (cfg : LimiterConfig) (store : GoStore)
    (req : Request) (reg : Registry) (hen : cfg.enabled = true) :
    routesHandler cfg store =
      recoverPanic (rateLimit cfg (authenticate store dispatchRoute)) ∧
    (routesHandler cfg store req reg).1 =
      Ev.lockAcquire :: Ev.rateDecision req.ip
          (admitClient cfg.rps cfg.burst reg req.ip req.now).1 ::
        (if (admitClient cfg.rps cfg.burst reg req.ip req.now).1 then
          (authenticate store dispatchRoute req
            (admitClient cfg.rps cfg.burst reg req.ip req.now).2).1
        else []) ∧
    (∀ e ∈ (authenticate store dispatchRoute req
        (admitClient cfg.rps cfg.burst reg req.ip req.now).2).1,
      e ≠ Ev.lockAcquire ∧ ∀ ip' ok', e ≠ Ev.rateDecision ip' ok') ∧
    ((admitClient cfg.rps cfg.burst reg req.ip req.now).1 = false →
      routesHandler cfg store req reg =
        ([Ev.lockAcquire, Ev.rateDecision req.ip false],
          (admitClient cfg.rps cfg.burst reg req.ip req.now).2,
          Resp.tooManyRequests)) ∧
    (routesHandler cfg store req reg).2.2 ≠ Resp.panicSignal := by
  have hshape := authenticate_inner_shape store req
    (admitClient cfg.rps cfg.burst reg req.ip req.now).2
  have hbody := rateLimit_enabled_eq cfg (authenticate store dispatchRoute)
    req reg hen
  refine ⟨rfl, ?_, ?_, ?_, ?_⟩
  · show (recoverPanic (rateLimit cfg (authenticate store dispatchRoute))
      req reg).1 = _
    rw [recoverPanic_eq, hbody]
    rcases (admitClient cfg.rps cfg.burst reg req.ip req.now).1 <;> simp
  · intro e he
    rcases hshape.2 e he with h | h | ⟨tk, h⟩ | h <;> subst h <;>
      exact ⟨by simp, fun ip' ok' => by simp⟩
  · intro hdeny
    show recoverPanic (rateLimit cfg (authenticate store dispatchRoute))
      req reg = _
    rw [recoverPanic_eq, hbody, hdeny]
    simp
  · exact recoverPanic_no_panic _ req reg

/-- Witness for C1: the enabled default configuration, a token-store that
never finds anything, and an anonymous request. -/
theorem middleware_chain_order_witness :
    (LimiterConfig.mk 2 4 true).enabled = true ∧
    (routesHandler (LimiterConfig.mk 2 4 true) (fun _ _ => GetResult.notFound)
      ⟨"10.0.0.1", 0, [], none, false⟩ []).2.2 ≠ Resp.panicSignal :=
  ⟨rfl,
    (middleware_chain_order (LimiterConfig.mk 2 4 true)
      (fun _ _ => GetResult.notFound) ⟨"10.0.0.1", 0, [], none, false⟩ []
      rfl).2.2.2.2⟩

/-- Claim C7: with the limiter disabled, the rate-limit stage is elided at
chain-construction time — the stage literally returns the inner handler —
so every request passes straight through: the registry is never consulted
or changed, and no lock-acquire or rate-decision event ever appears in a
request's trace. -/
theorem rateLimit_disabled_bypass (cfg : LimiterConfig) (next : Handler)
    (store : GoStore) (req : Request) (reg : Registry)
    (hdis : cfg.enabled = false) :
    rateLimit cfg next = next ∧
    (routesHandler cfg store req reg).2.1 = reg ∧
    Ev.lockAcquire ∉ (routesHandler cfg store req reg).1 ∧
    ∀ ip' ok', Ev.rateDecision ip' ok' ∉ (routesHandler cfg store req reg).1 := by
  have hbye : rateLimit cfg next = next := by simp [rateLimit, hdis]
  have hbye2 : rateLimit cfg (authenticate store dispatchRoute) =
      authenticate store dispatchRoute := by simp [rateLimit, hdis]
  have hshape := authenticate_inner_shape store req reg
  have hroutes : routesHandler cfg store req reg =
      ((authenticate store dispatchRoute req reg).1,
        (authenticate store dispatchRoute req reg).2.1,
        match (authenticate store dispatchRoute req reg).2.2 with
        | .panicSignal => .serverError true
        | resp => resp) := by
    show recoverPanic (rateLimit cfg (authenticate store dispatchRoute))
      req reg = _
    rw [hbye2, recoverPanic_eq]
  refine ⟨hbye, ?_, ?_, ?_⟩
  · rw [hroutes]; exact hshape.1
  · rw [hroutes]
    intro hmem
    rcases hshape.2 _ hmem with h | h | ⟨tk, h⟩ | h <;> simp at h
  · intro ip' ok'
    rw [hroutes]
    intro hmem
    rcases hshape.2 _ hmem with h | h | ⟨tk, h⟩ | h <;> simp at h

/-- Witness for C7: a disabled limiter configuration and an anonymous
request leave the registry untouched and lock-free. -/
theorem rateLimit_disabled_bypass_witness :
    (LimiterConfig.mk 2 4 false).enabled = false ∧
    rateLimit (LimiterConfig.mk 2 4 false) routeCore = routeCore ∧
    (routesHandler (LimiterConfig.mk 2 4 false)
      (fun _ _ => GetResult.notFound)
      ⟨"10.0.0.1", 0, [], none, false⟩ []).2.1 = [] :=
  ⟨rfl,
    (rateLimit_disabled_bypass (LimiterConfig.mk 2 4 false) routeCore
      (fun _ _ => GetResult.notFound) ⟨"10.0.0.1", 0, [], none, false⟩ []
      rfl).1,
    (rateLimit_disabled_bypass (LimiterConfig.mk 2 4 false) routeCore
      (fun _ _ => GetResult.notFound) ⟨"10.0.0.1", 0, [], none, false⟩ []
      rfl).2.1⟩

theorem splitOnChar_go_no_sep (sep : Char) :
    ∀ (t acc : List Char), t.contains sep = false →
      splitOnChar.go sep t acc = [acc.reverse ++ t] := by
  intro t
  induction t with
  | nil => intro acc _; simp [splitOnChar.go]
  | cons c cs ih =>
    intro acc h
    simp only [List.contains_cons, Bool.or_eq_false_iff, beq_eq_false_iff_ne,
      ne_eq] at h
    have hc : ¬ c = sep := fun hcc => h.1 hcc.symm
    rw [splitOnChar.go, if_neg hc, ih (c :: acc) h.2]
    simp

/-- Splitting a well-formed bearer header: `"Bearer " ++ t` with a
space-free token splits into exactly the scheme and the token. -/
theorem splitOnChar_bearer (t : List Char) (h : t.contains ' ' = false) :
    splitOnChar ' ' ("Bearer ".data ++ t) = ["Bearer".data, t] := by
  have hdata : "Bearer ".data = ['B', 'e', 'a', 'r', 'e', 'r', ' '] := by decide
  show splitOnChar.go ' ' ("Bearer ".data ++ t) [] = _
  rw [hdata]
  simp only [List.cons_append, List.nil_append]
  rw [splitOnChar.go, if_neg (by decide), splitOnChar.go, if_neg (by decide),
    splitOnChar.go, if_neg (by decide), splitOnChar.go, if_neg (by decide),
    splitOnChar.go, if_neg (by decide), splitOnChar.go, if_neg (by decide),
    splitOnChar.go, if_pos rfl, splitOnChar_go_no_sep ' ' t [] h]
  rfl

/-- The token shape check accepts exactly the non-empty 26-character
tokens. -/
theorem validTokenPlaintext_iff (t : List Char) :
    validTokenPlaintext t = true ↔ t ≠ [] ∧ t.length = 26 := by
  by_cases h1 : t = []
  · subst h1
    simp [validTokenPlaintext, validateTokenPlaintext, Validator.check,
      Validator.addError, Validator.new, Validator.valid]
  · by_cases h2 : t.length = 26
    · simp [validTokenPlaintext, validateTokenPlaintext, Validator.check,
        Validator.addError, Validator.new, Validator.valid, h1, h2]
    · simp [validTokenPlaintext, validateTokenPlaintext, Validator.check,
        Validator.addError, Validator.new, Validator.valid, h1, h2]

/-- Claim C8: the authenticate stage's outcome is determined by exactly one
of five mutually exclusive cases — no header: attach the anonymous
principal and invoke the inner handler; header not of the form
`Bearer <well-formed token>`: 401 invalid-credentials without invoking
the inner handler; a well-formed token the store does not know: 401
invalid-token; any other store error: 500; a found token: attach the
owning user and invoke the inner handler. -/
theorem authenticate_cases (store : GoStore) (next : Handler) (req : Request)
    (reg : Registry) :
    (req.authHeader = [] →
      authenticate store next req reg =
        (Ev.authAnon :: (next (contextSetUser req .anonymous) reg).1,
          (next (contextSetUser req .anonymous) reg).2)) ∧
    (req.authHeader ≠ [] →
      (∀ token, validTokenPlaintext token = true →
        splitOnChar ' ' req.authHeader ≠ ["Bearer".data, token]) →
      authenticate store next req reg =
        ([Ev.authReject], reg, Resp.invalidCredentials)) ∧
    (∀ token, splitOnChar ' ' req.authHeader = ["Bearer".data, token] →
      validTokenPlaintext token = true →
      (store scopeAuthentication token = GetResult.notFound →
        authenticate store next req reg =
          ([Ev.authLookup token], reg, Resp.invalidAuthToken)) ∧
      (store scopeAuthentication token = GetResult.dbError →
        authenticate store next req reg =
          ([Ev.authLookup token], reg, Resp.serverError false)) ∧
      (∀ u, store scopeAuthentication token = GetResult.found u →
        authenticate store next req reg =
          (Ev.authLookup token :: (next (contextSetUser req (.user u)) reg).1,
            (next (contextSetUser req (.user u)) reg).2))) := by
  refine ⟨?_, ?_, ?_⟩
  · intro hh
    rcases hnx : next (contextSetUser req .anonymous) reg with ⟨es, g', resp⟩
    simp [authenticate, hh, hnx]
  · intro hh hmal
    rcases hs : splitOnChar ' ' req.authHeader with _ | ⟨s, _ | ⟨t, _ | ⟨c, cs⟩⟩⟩
    · simp [authenticate, hh, hs]
    · simp [authenticate, hh, hs]
    · by_cases hb : s = "Bearer".data
      · subst hb
        by_cases hv : validTokenPlaintext t = true
        · exact absurd hs (hmal t hv)
        · simp [authenticate, hh, hs, hv]
      · simp [authenticate, hh, hs, hb]
    · simp [authenticate, hh, hs]
  · intro token hform hvalid
    have hne : req.authHeader ≠ [] := by
      intro hempty
      rw [hempty] at hform
      simp [splitOnChar, splitOnChar.go] at hform
    refine ⟨?_, ?_, ?_⟩
    · intro hst
      simp [authenticate, hne, hform, hvalid, hst]
    · intro hst
      simp [authenticate, hne, hform, hvalid, hst]
    · intro u hst
      rcases hnx : next (contextSetUser req (.user u)) reg with ⟨es, g', resp⟩
      simp [authenticate, hne, hform, hvalid, hst, hnx]

/-- Witness for C8: an absent header attaches the anonymous principal; a
26-character token unknown to the store draws the invalid-token
response. -/
theorem authenticate_cases_witness :
    (([] : List Char) = [] →
      authenticate (fun _ _ => GetResult.notFound) routeCore
        ⟨"10.0.0.1", 0, [], none, false⟩ [] =
        (Ev.authAnon :: (routeCore (contextSetUser
            ⟨"10.0.0.1", 0, [], none, false⟩ .anonymous) []).1,
          (routeCore (contextSetUser
            ⟨"10.0.0.1", 0, [], none, false⟩ .anonymous) []).2)) ∧
    authenticate (fun _ _ => GetResult.notFound) routeCore
      ⟨"10.0.0.1", 0, "Bearer abcdefghijklmnopqrstuvwxyz".data, none, false⟩
      [] =
      ([Ev.authLookup "abcdefghijklmnopqrstuvwxyz".data], [],
        Resp.invalidAuthToken) :=
  ⟨fun h => (authenticate_cases (fun _ _ => GetResult.notFound) routeCore
      ⟨"10.0.0.1", 0, [], none, false⟩ []).1 h,
    ((authenticate_cases (fun _ _ => GetResult.notFound) routeCore
      ⟨"10.0.0.1", 0, "Bearer abcdefghijklmnopqrstuvwxyz".data, none, false⟩
      []).2.2 "abcdefghijklmnopqrstuvwxyz".data (by decide) (by decide)).1 rfl⟩

/-- Claim C10: a header of the exact form `Bearer <token>` whose token is
empty or not exactly 26 characters long draws the same 401
invalid-credentials response as a malformed header, independently of the
token store — the store is never consulted — and a token can only ever
reach the store if it is non-empty and exactly 26 characters long. -/
theorem authenticate_token_shape_gate (store : GoStore) (next : Handler)
    (req : Request) (reg : Registry) (t : List Char)
    (hh : req.authHeader = "Bearer ".data ++ t)
    (hns : t.contains ' ' = false)
    (hbad : t = [] ∨ t.length ≠ 26) :
    authenticate store next req reg =
      ([Ev.authReject], reg, Resp.invalidCredentials) ∧
    (∀ store' : GoStore,
      authenticate store' next req reg = authenticate store next req reg) ∧
    (∀ (store' : GoStore) (req' : Request) (reg' : Registry)
      (tok : List Char),
      (∀ (r : Request) (g : Registry) (tk : List Char),
        Ev.authLookup tk ∉ (next r g).1) →
      Ev.authLookup tok ∈ (authenticate store' next req' reg').1 →
      tok ≠ [] ∧ tok.length = 26) := by
  have hsplit : splitOnChar ' ' req.authHeader = ["Bearer".data, t] := by
    rw [hh]; exact splitOnChar_bearer t hns
  have hne : req.authHeader ≠ [] := by
    rw [hh]; simp
  have hv : ¬ validTokenPlaintext t = true := by
    rw [validTokenPlaintext_iff]
    rcases hbad with h | h
    · simp [h]
    · simp [h]
  have hres : ∀ st : GoStore, authenticate st next req reg =
      ([Ev.authReject], reg, Resp.invalidCredentials) := by
    intro st
    simp [authenticate, hne, hsplit, hv]
  refine ⟨hres store, fun st => (hres st).trans (hres store).symm, ?_⟩
  intro store' req' reg' tok hnext hmem
  by_cases hh' : req'.authHeader = []
  · simp only [authenticate, if_pos hh', List.mem_cons] at hmem
    rcases hmem with h | h
    · exact absurd h (by simp)
    · exact absurd h (hnext _ _ _)
  · rcases hs : splitOnChar ' ' req'.authHeader
      with _ | ⟨s, _ | ⟨t2, _ | ⟨c, cs⟩⟩⟩
    · simp [authenticate, hh', hs] at hmem
    · simp [authenticate, hh', hs] at hmem
    · by_cases hb : s = "Bearer".data
      · by_cases hv2 : validTokenPlaintext t2 = true
        · have ht2 := (validTokenPlaintext_iff t2).mp hv2
          rcases hst : store' scopeAuthentication t2 with u | _ | _
          · simp only [authenticate, if_neg hh', hs, if_pos hb, hv2, if_true,
              hst, List.mem_cons] at hmem
            rcases hmem with h | h
            · obtain rfl : tok = t2 := by injection h
              exact ht2
            · exact absurd h (hnext _ _ _)
          · simp [authenticate, hh', hs, hb, hv2, hst] at hmem
            subst hmem; exact ht2
          · simp [authenticate, hh', hs, hb, hv2, hst] at hmem
            subst hmem; exact ht2
        · simp [authenticate, hh', hs, hb, hv2] at hmem
      · simp [authenticate, hh', hs, hb] at hmem
    · simp [authenticate, hh', hs] at hmem

/-- Witness for C10: the header `Bearer abc` (3-character token) draws
invalid-credentials, for a store in which every token resolves. -/
theorem authenticate_token_shape_gate_witness :
    ("Bearer abc".data = "Bearer ".data ++ "abc".data) ∧
    ("abc".data.contains ' ' = false) ∧
    ("abc".data = [] ∨ ("abc".data : List Char).length ≠ 26) ∧
    authenticate (fun _ _ => GetResult.found ⟨1, true⟩) routeCore
      ⟨"10.0.0.1", 0, "Bearer abc".data, none, false⟩ [] =
      ([Ev.authReject], [], Resp.invalidCredentials) :=
  ⟨by decide, by decide, Or.inr (by decide),
    (authenticate_token_shape_gate (fun _ _ => GetResult.found ⟨1, true⟩)
      routeCore ⟨"10.0.0.1", 0, "Bearer abc".data, none, false⟩ []
      "abc".data (by decide) (by decide) (Or.inr (by decide))).1⟩

/-- Counterexample for C9 as stated: an activated principal holding NO
permission codes still reaches the inner route handler — `requirePermission`
does not reject with a not-permitted response, because its RBAC body is
commented out in the source. -/
theorem requirePermission_counterexample :
    requirePermission "movies:read" routeCore
        ⟨"10.0.0.1", 0, [], some (.user ⟨7, true⟩), false⟩ [] =
      ([Ev.dispatch], [], Resp.routeOk) ∧
    Permissions.Include [] "movies:read" = false ∧
    Resp.routeOk ≠ Resp.notPermitted := by
  refine ⟨rfl, by decide, by decide⟩

/-- Claim C9 (amended): `requirePermission` composes the
activated-user check but performs NO permission check — its RBAC body is
commented out (`cmd/api/middleware.go:258-273`), so it delegates to
`requireActivatedUser` and the inner handler is invoked for every
activated authenticated principal regardless of the required code; the
membership helper `Permissions.Include` itself correctly decides whether
a code is in a permission set. -/
theorem requirePermission_delegates (code : String) (next : Handler) :
    requirePermission code next = requireActivatedUser next ∧
    (∀ (req : Request) (reg : Registry) (u : User),
      req.principal = some (.user u) → u.activated = true →
      requirePermission code next req reg = next req reg) ∧
    (∀ (p : Permissions) (c : String), Permissions.Include p c = true ↔ c ∈ p) := by
  refine ⟨rfl, ?_, ?_⟩
  · intro req reg u hp hu
    simp [requirePermission, requireActivatedUser, requireAuthenticatedUser,
      contextGetUser, hp, Principal.isAnonymous, Principal.activated, hu]
  · intro p c
    simp [Permissions.Include, List.contains, List.elem_iff]

/-- Witness for C9 (amended): an activated user passes straight through to
the inner handler whatever the required code. -/
theorem requirePermission_delegates_witness :
    ((⟨"10.0.0.1", 0, [], some (.user ⟨7, true⟩), false⟩ :
        Request).principal = some (.user ⟨7, true⟩)) ∧
    ((⟨7, true⟩ : User).activated = true) ∧
    requirePermission "movies:write" routeCore
        ⟨"10.0.0.1", 0, [], some (.user ⟨7, true⟩), false⟩ [] =
      routeCore ⟨"10.0.0.1", 0, [], some (.user ⟨7, true⟩), false⟩ [] :=
  ⟨rfl, rfl,
    (requirePermission_delegates "movies:write" routeCore).2.1
      ⟨"10.0.0.1", 0, [], some (.user ⟨7, true⟩), false⟩ [] ⟨7, true⟩ rfl rfl⟩

/-- Claim C2 as the code behaves (the metrics status-capture bug): the
middleware builds the wrapper `mw` but passes the RAW writer `w` to the
inner chain (`cmd/api/middleware.go:328`), so when the downstream handler
writes status 404, the per-status tick is recorded under `mw.statusCode`
= 200, while the client actually received 404; had the wrapper been
passed downstream (what its own doc comments at
`cmd/api/middleware.go:19,38-47` describe), it would have recorded 404. -/
theorem metrics_status_tick_bug :
    (metricsRun [WriterOp.writeHeader 404]).2 = 200 ∧
    downstreamStatus [WriterOp.writeHeader 404] = 404 ∧
    metricsRunWrapped [WriterOp.writeHeader 404] = 404 ∧
    (200 : ℕ) ≠ 404 := by decide

end Greenlight
